import Mathlib

/-!
Verification of the dl-verify repository's checksum and GPG key-resolution
engine against its specification.

The Go sources are shallowly embedded:
* `lib/hash.go` (checksum verification and result rendering) in namespace
  `DlVerify`;
* the gpg package (key-ID normalisation, key-server URL derivation, and the
  key download loop) in namespace `Gpg`.

File reads, hashing and the network are environment parameters: the digest
of the file under each algorithm, the per-pass success of opening/reading the
file, and the HTTP response produced for each candidate URL are passed as
functions.  The per-call random permutation produced by `rand.Perm` is passed
explicitly as a list of naturals.  Go panics (nil dereference, slice bounds)
are modelled as an explicit `panics` outcome constructor.
-/

namespace DlVerify

/-- Embeds `VerificationResult` from `lib/hash.go`: the lists of algorithm
names whose checksums matched (`Valid`) and mismatched (`Invalid`). -/
structure VerificationResult where
  Valid : List String
  Invalid : List String
deriving DecidableEq

/-- Embeds `englishJoin` from `lib/hash.go`: joins all but the last element
with `sep`, then appends `lastSep` and the last element. -/
def englishJoin (strs : List String) (sep lastSep : String) : String :=
  if strs.length = 0 then ""
  else if strs.length = 1 then strs.getD 0 ""
  else
    String.intercalate sep (strs.take (strs.length - 1)) ++ lastSep
      ++ strs.getD (strs.length - 1) ""

/-- Embeds `VerificationResult.IsValid`: at least one valid entry and no
invalid entries. -/
def VerificationResult.IsValid (v : VerificationResult) : Bool :=
  1 ≤ v.Valid.length && v.Invalid.length == 0

/-- Embeds `VerificationResult.IsInvalid`: at least one invalid entry. -/
def VerificationResult.IsInvalid (v : VerificationResult) : Bool :=
  1 ≤ v.Invalid.length

/-- Embeds `VerificationResult.IsNoOp`: no entries at all. -/
def VerificationResult.IsNoOp (v : VerificationResult) : Bool :=
  v.Invalid.length == 0 && v.Valid.length == 0

/-- Embeds `VerificationResult.ToMessage` from `lib/hash.go`, including the
source's spelling of "validatation" and its re-test of `IsValid()` after the
failure message has been built. -/
def VerificationResult.ToMessage (v : VerificationResult) : String :=
  if v.IsNoOp then "The file's contents was not validated using checksums"
  else if v.IsValid then
    "The file's contents succeeded validatation using "
      ++ englishJoin v.Valid ", " " and "
  else
    let failed := "The file's contents failed validation using "
      ++ englishJoin v.Invalid ", " " and "
    if v.IsValid then
      failed ++ ", it did succeed validation using "
        ++ englishJoin v.Valid ", " " and "
    else failed

/-- Embeds `ChecksumConfig` from `lib/hash.go`: one optional hex digest per
supported algorithm ("" means not requested). -/
structure ChecksumConfig where
  Sha512 : String
  Sha384 : String
  Sha256 : String
  Sha224 : String
  Sha1 : String
  Md5 : String
deriving DecidableEq

/-- The key set of the map built by `ValidHashTypes` / `ChecksumConfig.AsMap`. -/
def hashNames : List String := ["SHA512", "SHA384", "SHA256", "SHA224", "SHA1", "MD5"]

/-- Lower-cases a string character-wise, embedding `strings.ToLower` on the
ASCII fragment relevant to hex digests. -/
def goToLower (s : String) : String := String.mk (s.data.map Char.toLower)

/-- Embeds `ChecksumConfig.AsMap` from `lib/hash.go` as the lookup function of
the returned map: each supported algorithm name maps to the lower-cased
configured digest, any other key to Go's zero value `""`. -/
def ChecksumConfig.AsMap (config : ChecksumConfig) : String → String := fun k =>
  if k = "SHA512" then goToLower config.Sha512
  else if k = "SHA384" then goToLower config.Sha384
  else if k = "SHA256" then goToLower config.Sha256
  else if k = "SHA224" then goToLower config.Sha224
  else if k = "SHA1" then goToLower config.Sha1
  else if k = "MD5" then goToLower config.Md5
  else ""

/-- Embeds the loop body of `ChecksumConfig.VerifyFileChecksums` from
`lib/hash.go`.  `fileOk k` tells whether opening and streaming the file
succeeds on the pass for algorithm `k` (the file is re-opened per algorithm);
`fileDigest k` is the hex encoding of the file's digest under algorithm `k`.
`none` models the early `return nil, err` on an I/O failure. -/
def verifyLoop (fileOk : String → Bool) (fileDigest expectedOf : String → String) :
    List String → VerificationResult → Option VerificationResult
  | [], acc => some acc
  | k :: ks, acc =>
    let expectedHash := expectedOf k
    if expectedHash = "" then verifyLoop fileOk fileDigest expectedOf ks acc
    else if fileOk k = false then none
    else if expectedHash = fileDigest k then
      verifyLoop fileOk fileDigest expectedOf ks ⟨acc.Valid ++ [k], acc.Invalid⟩
    else
      verifyLoop fileOk fileDigest expectedOf ks ⟨acc.Valid, acc.Invalid ++ [k]⟩

/-- Embeds `ChecksumConfig.VerifyFileChecksums` from `lib/hash.go`.  `order`
is the iteration order of the Go map over `hashNames` (Go map order is
unspecified, so it is a parameter constrained to be a permutation of
`hashNames` in the theorems). -/
def ChecksumConfig.VerifyFileChecksums (config : ChecksumConfig) (order : List String)
    (fileOk : String → Bool) (fileDigest : String → String) : Option VerificationResult :=
  verifyLoop fileOk fileDigest config.AsMap order ⟨[], []⟩

end DlVerify

namespace Gpg

/-- Go `unicode.IsSpace` restricted to the Latin-1 range (the inputs the
claims exercise are ASCII). -/
def goIsSpace (c : Char) : Bool :=
  c = ' ' || c = '\t' || c = '\n' || c = '\x0b' || c = '\x0c' || c = '\r'
    || c = '\u0085' || c = ' '

/-- The ASCII characters lying in the Unicode punctuation categories used by
Go's `unicode.IsPunct`. -/
def goPunctChars : List Char :=
  ['!', '\x22', '#', '%', '&', '\x27', '(', ')', '*', ',', '-', '.', '/',
   ':', ';', '?', '@', '[', '\\', ']', '_', '\x7b', '\x7d']

/-- Go `unicode.IsPunct` restricted to ASCII. -/
def goIsPunct (c : Char) : Bool := goPunctChars.contains c

/-- Embeds the `strings.Map` call of `NewCleanedKeyID`: drop every whitespace
or punctuation character. -/
def stripSpacePunct (s : String) : String :=
  String.mk (s.data.filter fun c => !(goIsSpace c || goIsPunct c))

/-- Upper-cases a string character-wise, embedding `strings.ToUpper` on the
ASCII fragment. -/
def goToUpper (s : String) : String := String.mk (s.data.map Char.toUpper)

/-- Success condition of Go's `hex.DecodeString`: even length and every
character a hex digit. -/
def hexDecodeOk (s : String) : Bool :=
  s.length % 2 == 0 && s.data.all fun c =>
    ('0' ≤ c && c ≤ '9') || ('a' ≤ c && c ≤ 'f') || ('A' ≤ c && c ≤ 'F')

/-- Outcome of `NewCleanedKeyID` (gpg key-ID normalisation): a validated key,
an `ErrGpgKeyInvalid{Key, InvalidReason}`, an `ErrGpgKeyInsecure{Key}`, or a
Go runtime panic. -/
inductive KeyIDOutcome where
  | ok (key : String)
  | invalid (key reason : String)
  | insecure (key : String)
  | panics
deriving DecidableEq

/-- Embeds `NewCleanedKeyID` from the gpg package.  The steps, in source
order: strip whitespace/punctuation, upper-case, slice `keyID[0:2]` to test
for a `"0X"` prefix (a Go slice-bounds panic when fewer than two characters
remain), reject non-hex via `hex.DecodeString`, drop a leading `'0'` when the
length is odd, check the length against the four supported lengths, and check
the minimum-security length. -/
def NewCleanedKeyID (originalKeyID : String) (minLengthForSecurity : Nat) : KeyIDOutcome :=
  let keyID := goToUpper (stripSpacePunct originalKeyID)
  if keyID.data.length < 2 then .panics
  else
    let keyID := if keyID.data.take 2 = ['0', 'X'] then String.mk (keyID.data.drop 2) else keyID
    if !hexDecodeOk keyID then .invalid keyID "Key not Hexadecimal"
    else
      let keyID := if keyID.data.length % 2 == 1 && keyID.data.headD ' ' == '0'
        then String.mk (keyID.data.drop 1) else keyID
      let length := keyID.data.length
      if length ≠ 8 && length ≠ 16 && length ≠ 32 && length ≠ 40 then
        .invalid keyID "Key not a supported length"
      else if length < minLengthForSecurity then .insecure keyID
      else .ok keyID

/-- `NewKeyID`: initial acceptance requires at least a v3 fingerprint. -/
def NewKeyID (keyID : String) : KeyIDOutcome := NewCleanedKeyID keyID 32

/-- `KeyID.Clean`: re-validation before a key-server query permits short IDs. -/
def CleanKeyID (key : String) : KeyIDOutcome := NewCleanedKeyID key 8

/-- Embeds `KeyServerInformation` from the gpg package. -/
structure KeyServerInformation where
  KeyServers : List String
  UseHTTP : Bool
  UseHTTPS : Bool
  UseHKP : Bool
  UseHkps : Bool
deriving DecidableEq

/-- Embeds `getDefaultKeyServers`: the only uncommented default. -/
def getDefaultKeyServers : List String := ["pgp.mit.edu"]

/-- First-seen-order deduplication: the loop of `AddDefaultKeyServers`
building `ksNew` guarded by the `ksMap` seen-set. -/
def dedupFirstSeen (l : List String) : List String :=
  l.foldl (fun ksNew ks => if ksNew.contains ks then ksNew else ksNew ++ [ks]) []

/-- Go's built-in `copy(dst, src)`: overwrites the first
`min (length dst) (length src)` elements of `dst` with those of `src`,
leaving the rest of `dst` (and its length) unchanged. -/
def goCopy (dst src : List String) : List String :=
  src.take dst.length ++ dst.drop src.length

/-- Embeds `KeyServerInformation.AddDefaultKeyServers`: dedup the
concatenation of the configured servers and the defaults, then `copy` the
result over the existing `KeyServers` backing slice. -/
def AddDefaultKeyServers (ksi : KeyServerInformation) : KeyServerInformation :=
  let ksNew := dedupFirstSeen (ksi.KeyServers ++ getDefaultKeyServers)
  { ksi with KeyServers := goCopy ksi.KeyServers ksNew }

/-- Embeds Go's `url.URL` restricted to the fields the gpg package sets. -/
structure GoURL where
  Scheme : String
  Host : String
  Path : String
  RawQuery : String
deriving DecidableEq

/-- The protocol count computed at the top of `KeyServerURLs` (HKPS is not
counted; the source marks it unimplemented). -/
def numProtocols (ksi : KeyServerInformation) : Nat :=
  (if ksi.UseHTTPS then 1 else 0) + (if ksi.UseHKP then 1 else 0)
    + (if ksi.UseHTTP then 1 else 0)

/-- One iteration of the `KeyServerURLs` fill loop for the pair
`(src, target)` delivered by `range rand.Perm(numKeyServers)`: writes the
HTTPS, HKP and HTTP URLs of server `src` into slot `offset + target` of each
enabled protocol's block. -/
def keyServerURLsStep (ksi : KeyServerInformation) (out : List GoURL)
    (p : Nat × Nat) : List GoURL :=
  let numKeyServers := ksi.KeyServers.length
  let keyServer := ksi.KeyServers.getD p.1 ""
  let offset := 0
  let (out, offset) :=
    if ksi.UseHTTPS then
      (out.set (offset + p.2) ⟨"https", keyServer, "", ""⟩, offset + numKeyServers)
    else (out, offset)
  let (out, offset) :=
    if ksi.UseHKP then
      (out.set (offset + p.2) ⟨"http", keyServer ++ ":11371", "", ""⟩, offset + numKeyServers)
    else (out, offset)
  let out :=
    if ksi.UseHTTP then out.set (offset + p.2) ⟨"http", keyServer, "", ""⟩
    else out
  out

/-- Embeds `KeyServerInformation.KeyServerURLs`.  `perm` is the permutation
produced by `rand.Perm(len(ksi.KeyServers))`, passed explicitly; the output
slice starts as `make([]url.URL, numProtocols*numKeyServers)` (zero values)
and is filled by iterating `range perm`. -/
def KeyServerURLs (ksi : KeyServerInformation) (perm : List Nat) : List GoURL :=
  if numProtocols ksi = 0 then []
  else
    perm.enum.foldl (keyServerURLsStep ksi)
      (List.replicate (numProtocols ksi * ksi.KeyServers.length) ⟨"", "", "", ""⟩)

/-- Slot offset of the HKP block in the `KeyServerURLs` output slice: one
server block after HTTPS when HTTPS is enabled. -/
def hkpOffset (ksi : KeyServerInformation) : Nat :=
  if ksi.UseHTTPS then ksi.KeyServers.length else 0

/-- Slot offset of the plain-HTTP block in the `KeyServerURLs` output slice. -/
def httpOffset (ksi : KeyServerInformation) : Nat :=
  hkpOffset ksi + (if ksi.UseHKP then ksi.KeyServers.length else 0)

/-- The value (if any) that the `KeyServerURLs` loop iteration with
permutation target `target` and server host `host` leaves in slot `j`,
reading the three conditional writes back to front (last write wins). -/
def stepWriteVal (ksi : KeyServerInformation) (host : String) (target j : Nat) :
    Option GoURL :=
  if ksi.UseHTTP ∧ j = httpOffset ksi + target then some ⟨"http", host, "", ""⟩
  else if ksi.UseHKP ∧ j = hkpOffset ksi + target then
    some ⟨"http", host ++ ":11371", "", ""⟩
  else if ksi.UseHTTPS ∧ j = target then some ⟨"https", host, "", ""⟩
  else none

/-- The enabled protocols of a configuration in priority order
HTTPS → HKP → HTTP, as URL constructors. -/
def protoBlocks (ksi : KeyServerInformation) : List (String → GoURL) :=
  (if ksi.UseHTTPS then [fun h => ⟨"https", h, "", ""⟩] else []) ++
  (if ksi.UseHKP then [fun h => ⟨"http", h ++ ":11371", "", ""⟩] else []) ++
  (if ksi.UseHTTP then [fun h => ⟨"http", h, "", ""⟩] else [])

/-- The retryable (`nonFatalError`) outcomes of `downloadKeyFromKeyServer`:
a transport-level GET failure, `ErrKeyNotFound`, a `mime.ParseMediaType`
failure, or `ErrUnexpectedContentType`. -/
inductive NonFatalErr where
  | transportErr (msg : String)
  | keyNotFound
  | mediaTypeParseErr
  | unexpectedContentType
deriving DecidableEq

/-- Errors `DownloadKey` can return. -/
inductive DLErr where
  | gpgInvalid (key reason : String)
  | gpgInsecure (key : String)
  | nonFatal (e : NonFatalErr)
  | multipleKeysReturned
deriving DecidableEq

/-- Result of `DownloadKey`: the primary key of the unique entity found, an
error, or a Go runtime panic. -/
inductive DownloadOutcome where
  | ok (key : String)
  | err (e : DLErr)
  | panics
deriving DecidableEq

/-- An HTTP response as `downloadKeyFromKeyServer` consumes it: the status
code, the media type parsed from the `Content-Type` header (`none` models a
`mime.ParseMediaType` failure), and the entities parsed from the body by
`openpgp.ReadArmoredKeyRing` (whose error the source discards). -/
structure HTTPResponse where
  status : Nat
  mediatype : Option String
  keys : List String
deriving DecidableEq

/-- What `ctxhttp.Get` yields for a URL: a transport-level error or a
response. -/
inductive FetchResult where
  | transport (msg : String)
  | response (r : HTTPResponse)
deriving DecidableEq

/-- Embeds `downloadKeyFromKeyServer` as its `(entity, nonFatalErr, err)`
return triple, with the network modelled by `net`. -/
def downloadKeyFromKeyServer (net : GoURL → FetchResult) (u : GoURL) :
    Option String × Option NonFatalErr × Option Unit :=
  match net u with
  | .transport msg => (none, some (.transportErr msg), none)
  | .response r =>
    if r.status < 200 || r.status > 299 then (none, some .keyNotFound, none)
    else match r.mediatype with
      | none => (none, some .mediaTypeParseErr, none)
      | some mt =>
        if mt ≠ "application/pgp-keys" then (none, some .unexpectedContentType, none)
        else if r.keys.length = 0 then (none, some .keyNotFound, none)
        else if r.keys.length > 1 then (none, none, some ())
        else (some (r.keys.headD ""), none, none)

/-- Sets the lookup path and query on a candidate URL, as the top of the
`DownloadKey` loop body does. -/
def withLookup (u : GoURL) (qp : String) : GoURL :=
  { u with Path := "/pks/lookup", RawQuery := qp }

/-- The candidate loop of `DownloadKey` together with the code after it:
`entity` and `nonFatalErr` are the loop-carried variables (reassigned on
every iteration); a fatal error returns immediately, a non-fatal error logs
and continues, a found entity breaks; after the loop a pending non-fatal
error becomes fatal, and otherwise `entity.PrimaryKey` is returned — a nil
dereference (`panics`) when no iteration ran. -/
def downloadLoop (net : GoURL → FetchResult) (qp : String) :
    List GoURL → Option String → Option NonFatalErr → DownloadOutcome
  | [], entity, nonFatalErr =>
    match nonFatalErr with
    | some nf => .err (.nonFatal nf)
    | none =>
      match entity with
      | some e => .ok e
      | none => .panics
  | u :: rest, _, _ =>
    match downloadKeyFromKeyServer net (withLookup u qp) with
    | (_, _, some _) => .err .multipleKeysReturned
    | (e, some nf, none) => downloadLoop net qp rest e (some nf)
    | (some e, none, none) => .ok e
    | (none, none, none) => downloadLoop net qp rest none none

/-- The `url.Values.Encode()` result for the HKP lookup parameters (keys in
alphabetical order). -/
def lookupQuery (key : String) : String :=
  "exact=on&op=get&options=mr&search=0X" ++ key

/-- Embeds `KeyServerInformation.DownloadKey`.  `ctx`, `key` and `client` are
`none` when the Go pointer is nil; `perm` is the permutation consumed by
`KeyServerURLs`; `net` models what `ctxhttp.Get` does with the given context
and client.  A nil context or key panics; the key is re-validated with
`Clean()`; a nil client is replaced by `&http.Client{}`. -/
def DownloadKey (ksi : KeyServerInformation) (perm : List Nat)
    (ctx : Option Unit) (key : Option String) (client : Option Unit)
    (net : GoURL → FetchResult) : DownloadOutcome :=
  match ctx with
  | none => .panics
  | some _ =>
    match key with
    | none => .panics
    | some rawKey =>
      match CleanKeyID rawKey with
      | .panics => .panics
      | .invalid k r => .err (.gpgInvalid k r)
      | .insecure k => .err (.gpgInsecure k)
      | .ok cleaned =>
        let _client : Unit := client.getD ()
        downloadLoop net (lookupQuery cleaned) (KeyServerURLs ksi perm) none none

/-- A two-server HTTPS-only configuration used as a concrete environment. -/
def twoServerKsi : KeyServerInformation :=
  ⟨["one.example", "two.example"], false, true, false, false⟩

/-- A one-server HTTPS-only configuration used as a concrete environment. -/
def oneServerKsi : KeyServerInformation :=
  ⟨["two.example"], false, true, false, false⟩

/-- A network where the first server fails at the transport level and the
second returns a single key. -/
def transportThenOkNet : GoURL → FetchResult := fun u =>
  if u.Host = "one.example" then .transport "dial tcp: lookup failure"
  else .response ⟨200, some "application/pgp-keys", ["KEY"]⟩

/-- A network whose every response carries two keys. -/
def twoKeysNet : GoURL → FetchResult := fun _ =>
  .response ⟨200, some "application/pgp-keys", ["K1", "K2"]⟩

end Gpg

namespace DlVerify

/-- A sample checksum configuration requesting SHA256 and MD5. -/
def sampleConfig : ChecksumConfig := ⟨"", "", "AA", "", "", "bb"⟩

/-- A sample file-digest environment: the file hashes to "aa" under SHA256
and to "ff" under every other algorithm. -/
def sampleDigest : String → String := fun k => if k = "SHA256" then "aa" else "ff"

/-- The result `sampleConfig` produces against `sampleDigest`. -/
def sampleResult : VerificationResult := ⟨["SHA256"], ["MD5"]⟩

end DlVerify

namespace Gpg

/-- Claim C10 (confirmed): for every raw input whose form after stripping
whitespace and punctuation (and upper-casing, which is character-wise) is
shorter than two characters, `NewCleanedKeyID` panics on the `keyID[0:2]`
slice instead of returning an `ErrGpgKeyInvalid` error. -/
theorem newCleanedKeyID_short_input_panics (s : String) (minLen : Nat)
    (h : (goToUpper (stripSpacePunct s)).data.length < 2) :
    NewCleanedKeyID s minLen = .panics := by
  simp only [NewCleanedKeyID]
  rw [if_pos h]

/-- Witness for C10: the empty string strips to fewer than two characters and
`NewCleanedKeyID` panics on it. -/
theorem newCleanedKeyID_short_input_panics_witness :
    (goToUpper (stripSpacePunct "")).data.length < 2 ∧
      NewCleanedKeyID "" 32 = KeyIDOutcome.panics :=
  ⟨by decide, newCleanedKeyID_short_input_panics "" 32 (by decide)⟩

/-- Claim C5 (code_bug): the nine-hex-digit input "012345678" beginning with
'0' is rejected as non-hexadecimal, because `hex.DecodeString` (which refuses
odd-length strings) runs before the odd-length leading-zero drop, leaving the
claimed tolerance branch unreachable; the even-length form "12345678" that
the drop would have produced is accepted. -/
theorem newCleanedKeyID_odd_zero_prefixed_rejected :
    NewCleanedKeyID "012345678" 8
        = KeyIDOutcome.invalid "012345678" "Key not Hexadecimal" ∧
      NewCleanedKeyID "12345678" 8 = KeyIDOutcome.ok "12345678" := by decide

/-- Claim C4 (code_bug): `AddDefaultKeyServers` on an empty server list fails
to add the built-in default hostname: `copy` into the empty backing slice
drops everything the dedup loop collected. -/
theorem addDefaultKeyServers_misses_default :
    (AddDefaultKeyServers ⟨[], false, false, false, false⟩).KeyServers = [] ∧
      "pgp.mit.edu" ∈ getDefaultKeyServers := by decide

/-- Claim C1 (counterexample): the first candidate's GET fails at the
transport level, yet `DownloadKey` goes on to the second candidate and
succeeds instead of aborting the resolution with that error. -/
theorem downloadKey_transport_error_counterexample :
    transportThenOkNet (withLookup ⟨"https", "one.example", "", ""⟩
        (lookupQuery "0123456789ABCDEF"))
        = .transport "dial tcp: lookup failure" ∧
      KeyServerURLs twoServerKsi [0, 1]
        = [⟨"https", "one.example", "", ""⟩, ⟨"https", "two.example", "", ""⟩] ∧
      DownloadKey twoServerKsi [0, 1] (some ()) (some "0123456789ABCDEF")
        (some ()) transportThenOkNet = .ok "KEY" := by decide

/-- Claim C1 (amended): a transport-level GET failure on a candidate is a
retryable error: the loop records it and moves to the next candidate, and
when the candidate list is exhausted the recorded error is surfaced as the
final, fatal error. -/
theorem downloadLoop_transport_error_retryable (net : GoURL → FetchResult)
    (qp : String) (u : GoURL) (rest : List GoURL) (entity : Option String)
    (nf : Option NonFatalErr) (msg : String)
    (h : net (withLookup u qp) = .transport msg) :
    downloadLoop net qp (u :: rest) entity nf
        = downloadLoop net qp rest none (some (.transportErr msg)) ∧
      downloadLoop net qp [] none (some (.transportErr msg))
        = .err (.nonFatal (.transportErr msg)) := by
  constructor
  · simp only [downloadLoop, downloadKeyFromKeyServer, h]
  · rfl

/-- Witness for the amended C1: a concrete network where the sole candidate
fails at the transport level, and the failure is retried then surfaced. -/
theorem downloadLoop_transport_error_retryable_witness :
    transportThenOkNet (withLookup ⟨"https", "one.example", "", ""⟩ "q")
        = FetchResult.transport "dial tcp: lookup failure" ∧
      (downloadLoop transportThenOkNet "q" [⟨"https", "one.example", "", ""⟩]
          none none
          = downloadLoop transportThenOkNet "q" [] none
              (some (.transportErr "dial tcp: lookup failure")) ∧
        downloadLoop transportThenOkNet "q" [] none
            (some (.transportErr "dial tcp: lookup failure"))
          = .err (.nonFatal (.transportErr "dial tcp: lookup failure"))) :=
  ⟨by decide, downloadLoop_transport_error_retryable _ _ _ _ _ _ _ (by decide)⟩

/-- Claim C3 (confirmed): when a candidate's response is 2xx with media type
`application/pgp-keys` and parses to more than one key entry, the candidate
loop of `DownloadKey` returns `ErrMultipleKeysReturned` immediately,
whatever candidates remain. -/
theorem downloadLoop_multiple_keys_fatal (net : GoURL → FetchResult)
    (qp : String) (u : GoURL) (rest : List GoURL) (entity : Option String)
    (nf : Option NonFatalErr) (r : HTTPResponse)
    (hresp : net (withLookup u qp) = .response r)
    (hstatus : 200 ≤ r.status ∧ r.status ≤ 299)
    (hmt : r.mediatype = some "application/pgp-keys")
    (hkeys : 2 ≤ r.keys.length) :
    downloadLoop net qp (u :: rest) entity nf = .err .multipleKeysReturned := by
  have hd : downloadKeyFromKeyServer net (withLookup u qp) = (none, none, some ()) := by
    simp only [downloadKeyFromKeyServer, hresp, hmt]
    have h1 : ¬(r.status < 200) := by omega
    have h2 : ¬(r.status > 299) := by omega
    have h3 : ¬(r.keys.length = 0) := by omega
    have h4 : r.keys.length > 1 := by omega
    simp [h1, h2, h3, h4]
  simp only [downloadLoop, hd]

/-- Witness for C3: a concrete network returning two keys makes the loop
fail immediately with candidates still pending. -/
theorem downloadLoop_multiple_keys_fatal_witness :
    twoKeysNet (withLookup ⟨"https", "one.example", "", ""⟩ "q")
        = FetchResult.response ⟨200, some "application/pgp-keys", ["K1", "K2"]⟩ ∧
      downloadLoop twoKeysNet "q"
          [⟨"https", "one.example", "", ""⟩, ⟨"https", "two.example", "", ""⟩]
          none none
        = .err .multipleKeysReturned :=
  ⟨by decide, downloadLoop_multiple_keys_fatal _ _ _ _ _ _
    ⟨200, some "application/pgp-keys", ["K1", "K2"]⟩ (by decide)
    (by decide) (by decide) (by decide)⟩

/-- Claim C8 (counterexample): a call with a nil client is not aborted: the
client is silently replaced with a default-constructed one and the download
proceeds to success. -/
theorem downloadKey_nil_client_proceeds_counterexample :
    DownloadKey oneServerKsi [0] (some ()) (some "0123456789ABCDEF") none
      transportThenOkNet = .ok "KEY" := by decide

/-- Claim C8 (amended): `DownloadKey` enforces only the context and the key
as panic-checked preconditions; a nil client is replaced by an implicitly
constructed default `http.Client`, and the call proceeds exactly as with a
supplied client. -/
theorem downloadKey_nil_checks :
    (∀ (ksi : KeyServerInformation) (perm : List Nat) (key : Option String)
        (client : Option Unit) (net : GoURL → FetchResult),
      DownloadKey ksi perm none key client net = .panics) ∧
    (∀ (ksi : KeyServerInformation) (perm : List Nat) (client : Option Unit)
        (net : GoURL → FetchResult),
      DownloadKey ksi perm (some ()) none client net = .panics) ∧
    (∀ (ksi : KeyServerInformation) (perm : List Nat) (ctx : Option Unit)
        (key : Option String) (net : GoURL → FetchResult),
      DownloadKey ksi perm ctx key none net
        = DownloadKey ksi perm ctx key (some ()) net) := by
  refine ⟨fun _ _ _ _ _ => rfl, fun _ _ _ _ => rfl, ?_⟩
  intro ksi perm ctx key net
  cases ctx with
  | none => rfl
  | some u =>
    cases key with
    | none => rfl
    | some k => cases hc : CleanKeyID k <;> simp [DownloadKey, hc]

/-- Claim C9 (confirmed): when the derived candidate list is empty,
`DownloadKey` with a valid key never enters the loop and then dereferences
the nil `entity`, panicking instead of returning an error value. -/
theorem downloadKey_empty_candidates_panics (ksi : KeyServerInformation)
    (perm : List Nat) (key cleaned : String) (client : Option Unit)
    (net : GoURL → FetchResult)
    (hurls : KeyServerURLs ksi perm = [])
    (hclean : CleanKeyID key = .ok cleaned) :
    DownloadKey ksi perm (some ()) (some key) client net = .panics := by
  simp only [DownloadKey, hclean, hurls]
  rfl

/-- Witness for C9: a configuration with a server but no enabled protocol
derives no candidates, and `DownloadKey` panics. -/
theorem downloadKey_empty_candidates_panics_witness :
    KeyServerURLs ⟨["pgp.mit.edu"], false, false, false, false⟩ [0] = [] ∧
      CleanKeyID "0123456789ABCDEF" = .ok "0123456789ABCDEF" ∧
      DownloadKey ⟨["pgp.mit.edu"], false, false, false, false⟩ [0] (some ())
        (some "0123456789ABCDEF") (some ()) twoKeysNet = .panics :=
  ⟨by decide, by decide,
    downloadKey_empty_candidates_panics _ _ _ "0123456789ABCDEF" _ _
      (by decide) (by decide)⟩

end Gpg

namespace DlVerify

/-- Characterisation of the `VerifyFileChecksums` loop: on success, `Valid`
collects (in iteration order) the requested algorithms whose expected digest
equals the file digest, and `Invalid` the requested ones that differ. -/
theorem verifyLoop_some_eq (fileOk : String → Bool) (fd eo : String → String)
    (ks : List String) (acc r : VerificationResult)
    (h : verifyLoop fileOk fd eo ks acc = some r) :
    r.Valid = acc.Valid ++ ks.filter (fun k => !(eo k == "") && (eo k == fd k)) ∧
    r.Invalid = acc.Invalid ++ ks.filter (fun k => !(eo k == "") && !(eo k == fd k)) := by
  induction ks generalizing acc with
  | nil =>
    simp only [verifyLoop, Option.some.injEq] at h
    subst h
    simp
  | cons k ks ih =>
    simp only [verifyLoop] at h
    by_cases h1 : eo k = ""
    · rw [if_pos h1] at h
      obtain ⟨hv, hi⟩ := ih _ h
      constructor <;> simp [hv, hi, List.filter_cons, h1]
    · rw [if_neg h1] at h
      by_cases h2 : fileOk k = false
      · rw [if_pos h2] at h
        exact absurd h (by simp)
      · rw [if_neg h2] at h
        by_cases h3 : eo k = fd k
        · rw [if_pos h3] at h
          obtain ⟨hv, hi⟩ := ih _ h
          have h1b : ¬fd k = "" := h3 ▸ h1
          constructor <;> simp [hv, hi, List.filter_cons, h1, h3, h1b]
        · rw [if_neg h3] at h
          obtain ⟨hv, hi⟩ := ih _ h
          constructor <;> simp [hv, hi, List.filter_cons, h1, h3]

/-- Claim C2 (confirmed): whenever `VerifyFileChecksums` returns a result,
every algorithm with a non-empty expected value lands in exactly one of
`Valid`/`Invalid` — in `Valid` iff the lower-cased expected digest equals the
file's hex digest — algorithms with empty expected values appear in neither
set, and no name appears twice. -/
theorem verifyFileChecksums_partition (config : ChecksumConfig)
    (order : List String) (fileOk : String → Bool) (fd : String → String)
    (r : VerificationResult)
    (horder : order.Perm hashNames)
    (h : config.VerifyFileChecksums order fileOk fd = some r) :
    (∀ k ∈ hashNames, config.AsMap k ≠ "" →
      ((k ∈ r.Valid ↔ config.AsMap k = fd k) ∧
        (k ∈ r.Invalid ↔ config.AsMap k ≠ fd k))) ∧
    (∀ k : String, config.AsMap k = "" → k ∉ r.Valid ∧ k ∉ r.Invalid) ∧
    (r.Valid ++ r.Invalid).Nodup := by
  obtain ⟨hv, hi⟩ := verifyLoop_some_eq fileOk fd config.AsMap order ⟨[], []⟩ r h
  simp only [List.nil_append] at hv hi
  have hordnd : order.Nodup := horder.nodup_iff.mpr (by decide)
  refine ⟨?_, ?_, ?_⟩
  · intro k hk hne
    have hmem : k ∈ order := horder.mem_iff.mpr hk
    constructor
    · rw [hv]
      simp [List.mem_filter, hmem, hne]
    · rw [hi]
      simp [List.mem_filter, hmem, hne]
  · intro k hke
    constructor
    · rw [hv]
      simp [List.mem_filter, hke]
    · rw [hi]
      simp [List.mem_filter, hke]
  · rw [hv, hi]
    refine List.Nodup.append (hordnd.filter _) (hordnd.filter _) ?_
    intro x hx1 hx2
    rw [List.mem_filter] at hx1 hx2
    simp only [Bool.and_eq_true, bne_iff_ne, beq_iff_eq, Bool.not_eq_true'] at hx1 hx2
    rcases hx1.2 with ⟨_, heq⟩
    rcases hx2.2 with ⟨_, hneq⟩
    rw [heq] at hneq
    simp at hneq

/-- Witness for C2: a configuration requesting SHA256 (matching) and MD5
(mismatching) partitions exactly as claimed. -/
theorem verifyFileChecksums_partition_witness :
    (hashNames.Perm hashNames ∧
      sampleConfig.VerifyFileChecksums hashNames (fun _ => true) sampleDigest
        = some sampleResult) ∧
    ((∀ k ∈ hashNames, sampleConfig.AsMap k ≠ "" →
      ((k ∈ sampleResult.Valid ↔ sampleConfig.AsMap k = sampleDigest k) ∧
        (k ∈ sampleResult.Invalid ↔ sampleConfig.AsMap k ≠ sampleDigest k))) ∧
    (∀ k : String, sampleConfig.AsMap k = "" →
      k ∉ sampleResult.Valid ∧ k ∉ sampleResult.Invalid) ∧
    (sampleResult.Valid ++ sampleResult.Invalid).Nodup) :=
  ⟨⟨List.Perm.refl _, by decide⟩,
    verifyFileChecksums_partition sampleConfig hashNames (fun _ => true)
      sampleDigest sampleResult (List.Perm.refl _) (by decide)⟩

/-- Claim C7 (code_bug): a mixed result (one valid, one invalid algorithm)
renders only the failed algorithms; the branch that would append the
succeeded list is gated on `IsValid()`, which is false whenever `Invalid` is
non-empty. -/
theorem toMessage_mixed_omits_valid :
    VerificationResult.ToMessage ⟨["SHA256"], ["MD5"]⟩
        = "The file's contents failed validation using MD5" ∧
      VerificationResult.IsValid ⟨["SHA256"], ["MD5"]⟩ = false := by decide

end DlVerify

namespace Gpg

/-- One loop iteration of `KeyServerURLs` preserves the slice length. -/
theorem keyServerURLsStep_length (ksi : KeyServerInformation) (out : List GoURL)
    (p : Nat × Nat) : (keyServerURLsStep ksi out p).length = out.length := by
  rcases ksi with ⟨sv, uhttp, uhttps, uhkp, uhkps⟩
  cases uhttp <;> cases uhttps <;> cases uhkp <;>
    simp [keyServerURLsStep, List.length_set]

/-- The whole `KeyServerURLs` fill loop preserves the slice length. -/
theorem foldl_step_length (ksi : KeyServerInformation) (l : List (Nat × Nat))
    (out : List GoURL) :
    (l.foldl (keyServerURLsStep ksi) out).length = out.length := by
  induction l generalizing out with
  | nil => rfl
  | cons p l ih => rw [List.foldl_cons, ih, keyServerURLsStep_length]

/-- When an iteration writes slot `j`, the slot afterwards holds that value. -/
theorem stepWriteVal_write_getElem (ksi : KeyServerInformation) (out : List GoURL)
    (src target j : Nat) (v : GoURL)
    (hlen : out.length = numProtocols ksi * ksi.KeyServers.length)
    (ht : target < ksi.KeyServers.length)
    (hw : stepWriteVal ksi (ksi.KeyServers.getD src "") target j = some v) :
    (keyServerURLsStep ksi out (src, target))[j]? = some v := by
  rcases ksi with ⟨sv, uhttp, uhttps, uhkp, uhkps⟩
  simp only [numProtocols] at hlen
  simp only [stepWriteVal, hkpOffset, httpOffset] at hw
  simp only [keyServerURLsStep]
  cases uhttp <;> cases uhttps <;> cases uhkp <;>
    simp_all <;>
    split_ifs at hw <;>
    simp_all [List.getElem?_set, List.length_set] <;>
    omega


/-- When an iteration does not write slot `j`, the slot is unchanged. -/
theorem stepWriteVal_skip_getElem (ksi : KeyServerInformation) (out : List GoURL)
    (src target j : Nat)
    (hw : stepWriteVal ksi (ksi.KeyServers.getD src "") target j = none) :
    (keyServerURLsStep ksi out (src, target))[j]? = out[j]? := by
  rcases ksi with ⟨sv, uhttp, uhttps, uhkp, uhkps⟩
  simp only [stepWriteVal, hkpOffset, httpOffset] at hw
  simp only [keyServerURLsStep]
  cases uhttp <;> cases uhttps <;> cases uhkp <;>
    simp_all <;>
    (try split_ifs at hw) <;>
    (try simp_all) <;>
    (repeat rw [List.getElem?_set_ne (by omega)])

/-- Whether an iteration writes slot `j` does not depend on the host. -/
theorem stepWriteVal_host_isSome (ksi : KeyServerInformation) (h1 h2 : String)
    (target j : Nat) :
    (stepWriteVal ksi h1 target j).isSome = (stepWriteVal ksi h2 target j).isSome := by
  simp only [stepWriteVal]
  split_ifs <;> rfl

/-- At most one permutation target can write a given slot. -/
theorem stepWriteVal_target_eq (ksi : KeyServerInformation) (t u j : Nat)
    (ht : t < ksi.KeyServers.length) (hu : u < ksi.KeyServers.length)
    (h1 : (stepWriteVal ksi "" t j).isSome = true)
    (h2 : (stepWriteVal ksi "" u j).isSome = true) : t = u := by
  rcases ksi with ⟨sv, uhttp, uhttps, uhkp, uhkps⟩
  simp only [stepWriteVal, hkpOffset, httpOffset] at h1 h2 ht hu
  cases uhttp <;> cases uhttps <;> cases uhkp <;>
    simp_all <;>
    split_ifs at h1 h2 <;>
    simp_all <;>
    omega

/-- Every written slot lies below `numProtocols * numKeyServers`. -/
theorem stepWriteVal_isSome_lt (ksi : KeyServerInformation) (t j : Nat)
    (ht : t < ksi.KeyServers.length)
    (h : (stepWriteVal ksi "" t j).isSome = true) :
    j < numProtocols ksi * ksi.KeyServers.length := by
  rcases ksi with ⟨sv, uhttp, uhttps, uhkp, uhkps⟩
  simp only [stepWriteVal, hkpOffset, httpOffset] at h ht
  simp only [numProtocols]
  cases uhttp <;> cases uhttps <;> cases uhkp <;>
    simp_all <;>
    split_ifs at h <;>
    simp_all <;>
    omega


/-- `find?` only depends on the values of the predicate on the list. -/
theorem find?_congr_on (l : List (Nat × Nat)) (p q : Nat × Nat → Bool)
    (h : ∀ x ∈ l, p x = q x) : l.find? p = l.find? q := by
  induction l with
  | nil => rfl
  | cons a l ih =>
    rw [List.find?_cons, List.find?_cons, h a (by simp)]
    cases q a
    · exact ih fun x hx => h x (by simp [hx])
    · rfl

/-- Searching an enumerated list for value `t` finds its first index. -/
theorem find?_enumFrom_snd (l : List Nat) (t n : Nat) (h : t ∈ l) :
    (l.enumFrom n).find? (fun p => p.2 == t) = some (n + l.indexOf t, t) := by
  induction l generalizing n with
  | nil => cases h
  | cons a l ih =>
    rw [List.enumFrom_cons, List.find?_cons]
    by_cases ha : a = t
    · subst ha
      simp [List.indexOf_cons_self]
    · have ht : t ∈ l := by
        cases List.mem_cons.mp h with
        | inl hh => exact absurd hh.symm ha
        | inr hh => exact hh
      have hb : ((n, a).2 == t) = false := by simp [ha]
      rw [hb, ih (n + 1) ht]
      rw [List.indexOf_cons_ne _ (by exact ha)]
      have harith : n + 1 + l.indexOf t = n + (l.indexOf t).succ := by omega
      rw [harith]

/-- Characterisation of the `KeyServerURLs` fill loop: slot `j` holds the
value written by the unique iteration hitting `j`, or the initial zero value
when no iteration hits it. -/
theorem foldl_step_getElem (ksi : KeyServerInformation) (l : List (Nat × Nat))
    (out : List GoURL) (j : Nat)
    (hlen : out.length = numProtocols ksi * ksi.KeyServers.length)
    (hts : ∀ p ∈ l, p.2 < ksi.KeyServers.length)
    (hnd : (l.map Prod.snd).Nodup) :
    (l.foldl (keyServerURLsStep ksi) out)[j]? =
      match l.find? (fun p => (stepWriteVal ksi "" p.2 j).isSome) with
      | some p => stepWriteVal ksi (ksi.KeyServers.getD p.1 "") p.2 j
      | none => out[j]? := by
  induction l generalizing out with
  | nil => rfl
  | cons p l ih =>
    obtain ⟨src, target⟩ := p
    have htarget : target < ksi.KeyServers.length := hts (src, target) (by simp)
    have hnd2 : (l.map Prod.snd).Nodup := (List.nodup_cons.mp hnd).2
    have hnotmem : target ∉ l.map Prod.snd := (List.nodup_cons.mp hnd).1
    have hts2 : ∀ q ∈ l, q.2 < ksi.KeyServers.length :=
      fun q hq => hts q (by simp [hq])
    have hlen2 : (keyServerURLsStep ksi out (src, target)).length
        = numProtocols ksi * ksi.KeyServers.length := by
      rw [keyServerURLsStep_length]
      exact hlen
    rw [List.foldl_cons, List.find?_cons]
    by_cases hhit : (stepWriteVal ksi "" target j).isSome = true
    · have hh2 : (stepWriteVal ksi (ksi.KeyServers.getD src "") target j).isSome = true := by
        rw [stepWriteVal_host_isSome ksi (ksi.KeyServers.getD src "") ""]
        exact hhit
      obtain ⟨v, hv⟩ := Option.isSome_iff_exists.mp hh2
      simp only [hhit]
      rw [ih (keyServerURLsStep ksi out (src, target)) hlen2 hts2 hnd2]
      have hfind : l.find? (fun q => (stepWriteVal ksi "" q.2 j).isSome) = none := by
        rw [List.find?_eq_none]
        intro q hq hq2
        have heq : q.2 = target := stepWriteVal_target_eq ksi q.2 target j
          (hts2 q hq) htarget hq2 hhit
        exact hnotmem (heq ▸ List.mem_map_of_mem Prod.snd hq)
      rw [hfind, hv]
      exact stepWriteVal_write_getElem ksi out src target j v hlen htarget hv
    · simp only [Bool.not_eq_true] at hhit
      simp only [hhit]
      have hmiss : stepWriteVal ksi (ksi.KeyServers.getD src "") target j = none := by
        cases hcase : stepWriteVal ksi (ksi.KeyServers.getD src "") target j with
        | none => rfl
        | some v =>
          exfalso
          have hsame := stepWriteVal_host_isSome ksi (ksi.KeyServers.getD src "") "" target j
          rw [hcase, hhit] at hsame
          simp at hsame
      rw [ih (keyServerURLsStep ksi out (src, target)) hlen2 hts2 hnd2]
      cases hf : l.find? (fun q => (stepWriteVal ksi "" q.2 j).isSome) with
      | some q => rfl
      | none => exact stepWriteVal_skip_getElem ksi out src target j hmiss


/-- Indexing a concatenation of equal-length blocks, one block per
constructor. -/
theorem getElem?_flatMap_map {α β : Type} (bs : List (α → β)) (sv : List α) (j : Nat) :
    (bs.flatMap (fun mk => sv.map mk))[j]? =
      (bs[j / sv.length]?).bind fun mk => (sv[j % sv.length]?).map mk := by
  induction bs generalizing j with
  | nil => simp
  | cons mk bs ih =>
    rw [List.flatMap_cons, List.getElem?_append, List.length_map]
    by_cases hS : sv.length = 0
    · have hsv : sv = [] := List.length_eq_zero.mp hS
      subst hsv
      rw [if_neg (by simp)]
      simp only [List.length_nil, Nat.sub_zero] at ih ⊢
      rw [ih j]
      have hnone : ∀ (o : Option (α → β)),
          (o.bind fun mk2 => ((([] : List α))[j % 0]?).map mk2) = none := by
        intro o
        cases o <;> rfl
      rw [hnone, hnone]
    · have hS2 : 0 < sv.length := Nat.pos_of_ne_zero hS
      by_cases hj : j < sv.length
      · rw [if_pos hj, Nat.div_eq_of_lt hj, Nat.mod_eq_of_lt hj]
        rw [List.getElem?_map]
        simp
      · rw [if_neg hj, ih (j - sv.length)]
        obtain ⟨q, hq⟩ : ∃ q, j / sv.length = q + 1 :=
          ⟨j / sv.length - 1, by
            have := (Nat.one_le_div_iff hS2).mpr (Nat.le_of_not_lt hj)
            omega⟩
        have hqr := Nat.div_add_mod j sv.length
        have hr : j % sv.length < sv.length := Nat.mod_lt _ hS2
        have hsub : j - sv.length = j % sv.length + sv.length * q := by
          rw [hq, Nat.mul_succ] at hqr
          omega
        rw [hsub, Nat.add_mul_div_left _ _ hS2, Nat.add_mul_mod_self_left,
          Nat.div_eq_of_lt hr, Nat.mod_eq_of_lt hr, Nat.zero_add, hq,
          List.getElem?_cons_succ]

/-- There are as many enabled protocol blocks as counted protocols. -/
theorem protoBlocks_length (ksi : KeyServerInformation) :
    (protoBlocks ksi).length = numProtocols ksi := by
  rcases ksi with ⟨sv, uhttp, uhttps, uhkp, uhkps⟩
  cases uhttp <;> cases uhttps <;> cases uhkp <;> rfl

/-- The three conditional protocol blocks, written as one `flatMap`. -/
theorem blocks_append_eq_flatMap (ksi : KeyServerInformation) (sv2 : List String) :
    (if ksi.UseHTTPS then sv2.map (fun h => (⟨"https", h, "", ""⟩ : GoURL)) else []) ++
      (if ksi.UseHKP then sv2.map (fun h => (⟨"http", h ++ ":11371", "", ""⟩ : GoURL)) else []) ++
      (if ksi.UseHTTP then sv2.map (fun h => (⟨"http", h, "", ""⟩ : GoURL)) else []) =
    (protoBlocks ksi).flatMap (fun mk => sv2.map mk) := by
  rcases ksi with ⟨sv, uhttp, uhttps, uhkp, uhkps⟩
  cases uhttp <;> cases uhttps <;> cases uhkp <;>
    simp [protoBlocks]

/-- The value written into slot `k*S + t` is the `k`-th enabled protocol
constructor applied to the host. -/
theorem stepWriteVal_eq_protoBlocks (ksi : KeyServerInformation) (host : String)
    (t k : Nat) (ht : t < ksi.KeyServers.length) (hk : k < numProtocols ksi) :
    stepWriteVal ksi host t (k * ksi.KeyServers.length + t)
      = ((protoBlocks ksi)[k]?).map (fun mk => mk host) := by
  rcases ksi with ⟨sv, uhttp, uhttps, uhkp, uhkps⟩
  simp only [numProtocols] at hk
  cases uhttp <;> cases uhttps <;> cases uhkp <;>
    simp_all [stepWriteVal, protoBlocks, hkpOffset, httpOffset] <;>
    interval_cases k <;>
    (try split_ifs) <;>
    simp_all <;>
    first
      | rfl
      | omega


/-- Reading the servers back through the inverse of a permutation of their
indices permutes the server list. -/
theorem perm_getD_indexOf (sv : List String) (perm : List Nat)
    (hperm : perm.Perm (List.range sv.length)) :
    ((List.range sv.length).map (fun t => sv.getD (perm.indexOf t) "")).Perm sv := by
  have hmem : ∀ t, t < sv.length → t ∈ perm := fun t h =>
    hperm.mem_iff.mpr (List.mem_range.mpr h)
  have hlenp : perm.length = sv.length := by
    rw [hperm.length_eq, List.length_range]
  have hidx : ((List.range sv.length).map (fun t => perm.indexOf t)).Perm
      (List.range sv.length) := by
    apply List.Subperm.perm_of_length_le
    · apply List.subperm_of_subset
      · apply List.Nodup.map_on ?_ (List.nodup_range _)
        intro x hx y hy hxy
        have hx2 : perm.indexOf x < perm.length :=
          List.indexOf_lt_length.mpr (hmem x (List.mem_range.mp hx))
        have hy2 : perm.indexOf y < perm.length :=
          List.indexOf_lt_length.mpr (hmem y (List.mem_range.mp hy))
        rw [← List.indexOf_get hx2, ← List.indexOf_get hy2]
        simp [hxy]
      · intro x hx
        obtain ⟨t, ht2, rfl⟩ := List.mem_map.mp hx
        rw [List.mem_range, ← hlenp]
        exact List.indexOf_lt_length.mpr (hmem t (List.mem_range.mp ht2))
    · simp
  have h3 : (List.range sv.length).map (fun i => sv.getD i "") = sv := by
    apply List.ext_getElem
    · simp
    · intro n h1 h2
      simp only [List.getElem_map, List.getElem_range]
      exact List.getD_eq_getElem sv "" h2
  have h2 := hidx.map (fun i => sv.getD i "")
  rw [List.map_map, h3] at h2
  exact h2


/-- Claim C6 (confirmed): for any permutation of the server indices (the
model of `rand.Perm`), `KeyServerURLs` returns exactly P×S URLs laid out as
the HTTPS block, then the HKP block, then the plain-HTTP block, each enabled
block listing every configured hostname exactly once (in the same permuted
order across blocks, bare host for HTTPS/HTTP and host plus ":11371" for
HKP), and returns the empty sequence when no protocol is enabled. -/
theorem keyServerURLs_protocol_blocks (ksi : KeyServerInformation) (perm : List Nat)
    (hperm : perm.Perm (List.range ksi.KeyServers.length)) :
    ∃ servers2 : List String, servers2.Perm ksi.KeyServers ∧
      KeyServerURLs ksi perm =
        (if ksi.UseHTTPS then servers2.map (fun h => ⟨"https", h, "", ""⟩) else []) ++
        (if ksi.UseHKP then servers2.map (fun h => ⟨"http", h ++ ":11371", "", ""⟩) else []) ++
        (if ksi.UseHTTP then servers2.map (fun h => ⟨"http", h, "", ""⟩) else []) ∧
      (KeyServerURLs ksi perm).length = numProtocols ksi * ksi.KeyServers.length ∧
      (numProtocols ksi = 0 → KeyServerURLs ksi perm = []) := by
  refine ⟨(List.range ksi.KeyServers.length).map
      (fun t => ksi.KeyServers.getD (perm.indexOf t) ""),
    perm_getD_indexOf _ _ hperm, ?_, ?_, ?_⟩
  · rw [blocks_append_eq_flatMap]
    apply List.ext_getElem?
    intro j
    by_cases hP : numProtocols ksi = 0
    · have hpb : protoBlocks ksi = [] :=
        List.length_eq_zero.mp (by rw [protoBlocks_length]; exact hP)
      simp [KeyServerURLs, hP, hpb]
    · have hlenr : (List.replicate (numProtocols ksi * ksi.KeyServers.length)
          (⟨"", "", "", ""⟩ : GoURL)).length
          = numProtocols ksi * ksi.KeyServers.length :=
        List.length_replicate _ _
      have hts : ∀ p ∈ perm.enum, p.2 < ksi.KeyServers.length := by
        intro p hp
        obtain ⟨i, x⟩ := p
        obtain ⟨hi, hx⟩ := List.mem_enum hp
        show x < ksi.KeyServers.length
        rw [hx]
        exact List.mem_range.mp (hperm.mem_iff.mp (List.getElem_mem hi))
      have hnd : (perm.enum.map Prod.snd).Nodup := by
        rw [List.enum_map_snd]
        exact hperm.nodup_iff.mpr (List.nodup_range _)
      simp only [KeyServerURLs, if_neg hP]
      rw [foldl_step_getElem ksi perm.enum _ j hlenr hts hnd]
      rw [getElem?_flatMap_map]
      have hlen2 : ((List.range ksi.KeyServers.length).map
          (fun t => ksi.KeyServers.getD (perm.indexOf t) "")).length
          = ksi.KeyServers.length := by simp
      rw [hlen2]
      by_cases hj : j < numProtocols ksi * ksi.KeyServers.length
      · have hS : 0 < ksi.KeyServers.length := by
          rcases Nat.eq_zero_or_pos ksi.KeyServers.length with h0 | h0
          · rw [h0, Nat.mul_zero] at hj
            omega
          · exact h0
        obtain ⟨k, t, hjeq, ht, hk⟩ :
            ∃ k t, j = k * ksi.KeyServers.length + t ∧ t < ksi.KeyServers.length ∧
              k < numProtocols ksi := by
          refine ⟨j / ksi.KeyServers.length, j % ksi.KeyServers.length, ?_,
            Nat.mod_lt _ hS, (Nat.div_lt_iff_lt_mul hS).mpr hj⟩
          have hdm := Nat.div_add_mod j ksi.KeyServers.length
          rw [Nat.mul_comm]
          omega
        subst hjeq
        have hdiv : (k * ksi.KeyServers.length + t) / ksi.KeyServers.length = k := by
          rw [Nat.add_comm, Nat.mul_comm, Nat.add_mul_div_left _ _ hS,
            Nat.div_eq_of_lt ht, Nat.zero_add]
        have hmod : (k * ksi.KeyServers.length + t) % ksi.KeyServers.length = t := by
          rw [Nat.add_comm, Nat.mul_comm, Nat.add_mul_mod_self_left,
            Nat.mod_eq_of_lt ht]
        have htmem : t ∈ perm := hperm.mem_iff.mpr (List.mem_range.mpr ht)
        have hhit : (stepWriteVal ksi "" t
            (k * ksi.KeyServers.length + t)).isSome = true := by
          rw [stepWriteVal_eq_protoBlocks ksi "" t k ht hk]
          have hk2 : k < (protoBlocks ksi).length := by
            rw [protoBlocks_length]
            exact hk
          simp [List.getElem?_eq_getElem hk2]
        have hfind : perm.enum.find?
            (fun p => (stepWriteVal ksi "" p.2 (k * ksi.KeyServers.length + t)).isSome)
            = some (perm.indexOf t, t) := by
          have hcong : perm.enum.find?
              (fun p => (stepWriteVal ksi "" p.2 (k * ksi.KeyServers.length + t)).isSome)
              = perm.enum.find? (fun p => p.2 == t) := by
            apply find?_congr_on
            intro x hx
            by_cases hxt : x.2 = t
            · rw [hxt, hhit]
              simp
            · have hx2 : x.2 < ksi.KeyServers.length := hts x hx
              have hno : (stepWriteVal ksi "" x.2
                  (k * ksi.KeyServers.length + t)).isSome = false := by
                by_contra hc
                rw [Bool.not_eq_false] at hc
                exact hxt (stepWriteVal_target_eq ksi x.2 t _ hx2 ht hc hhit)
              rw [hno]
              simp [hxt]
          rw [hcong]
          have hres := find?_enumFrom_snd perm t 0 htmem
          simpa using hres
        simp only [hfind, hdiv, hmod]
        rw [stepWriteVal_eq_protoBlocks ksi _ t k ht hk]
        have hsv2 : ((List.range ksi.KeyServers.length).map
            (fun u => ksi.KeyServers.getD (perm.indexOf u) ""))[t]?
            = some (ksi.KeyServers.getD (perm.indexOf t) "") := by
          rw [List.getElem?_map, List.getElem?_range ht]
          rfl
        rw [hsv2]
        cases hpb : (protoBlocks ksi)[k]? with
        | none => rfl
        | some mk => rfl
      · have hfindnone : perm.enum.find?
            (fun p => (stepWriteVal ksi "" p.2 j).isSome) = none := by
          rw [List.find?_eq_none]
          intro x hx hxs
          exact hj (stepWriteVal_isSome_lt ksi x.2 j (hts x hx) hxs)
        simp only [hfindnone]
        rw [List.getElem?_replicate, if_neg hj]
        rcases Nat.eq_zero_or_pos ksi.KeyServers.length with h0 | h0
        · have hnone2 : ((List.range ksi.KeyServers.length).map
              (fun u => ksi.KeyServers.getD (perm.indexOf u) ""))[j % ksi.KeyServers.length]?
              = none := by
            rw [List.getElem?_eq_none]
            simp [h0]
          rw [hnone2]
          cases (protoBlocks ksi)[j / ksi.KeyServers.length]? <;> rfl
        · have hpge : (protoBlocks ksi).length ≤ j / ksi.KeyServers.length := by
            rw [protoBlocks_length]
            exact (Nat.le_div_iff_mul_le h0).mpr (Nat.le_of_not_lt hj)
          rw [List.getElem?_eq_none hpge]
          rfl
  · by_cases hP : numProtocols ksi = 0
    · simp [KeyServerURLs, hP]
    · simp only [KeyServerURLs, if_neg hP]
      rw [foldl_step_length, List.length_replicate]
  · intro h0
    simp [KeyServerURLs, h0]

/-- Witness for C6: two servers with only HTTPS enabled and the swap
permutation yield exactly the two HTTPS URLs, one per hostname. -/
theorem keyServerURLs_protocol_blocks_witness :
    ([1, 0] : List Nat).Perm (List.range twoServerKsi.KeyServers.length) ∧
    (∃ servers2 : List String, servers2.Perm twoServerKsi.KeyServers ∧
      KeyServerURLs twoServerKsi [1, 0] =
        (if twoServerKsi.UseHTTPS then
          servers2.map (fun h => ⟨"https", h, "", ""⟩) else []) ++
        (if twoServerKsi.UseHKP then
          servers2.map (fun h => ⟨"http", h ++ ":11371", "", ""⟩) else []) ++
        (if twoServerKsi.UseHTTP then
          servers2.map (fun h => ⟨"http", h, "", ""⟩) else []) ∧
      (KeyServerURLs twoServerKsi [1, 0]).length
        = numProtocols twoServerKsi * twoServerKsi.KeyServers.length ∧
      (numProtocols twoServerKsi = 0 → KeyServerURLs twoServerKsi [1, 0] = [])) :=
  ⟨by decide, keyServerURLs_protocol_blocks twoServerKsi [1, 0] (by decide)⟩

end Gpg
